import Mathlib

/-!
Verification of the per-CPU slab cache engine (`tcmalloc/internal/percpu_tcmalloc.cc`).

This file shallowly embeds the control operations of `TcmallocSlab`:
`Init`, `InitCpuImpl`, `DrainCpu`, `Drain`, `GrowOtherCache`,
`ShrinkOtherCache`, `StopCpu`, `StartCpu` and `ResizeSlabs`.

Modelling conventions:
* `Header` is the packed per-class triple of 16-bit offsets `begin`,
  `current`, `end` (`end_` here, `end` being reserved).  Fields are `Nat`;
  theorems carry the `uint16` range bounds as the well-formedness
  hypothesis `Header.wf`.  Where the C++ arithmetic converts a wider value
  to `uint16_t`, the embedding takes `% 65536`; where a subtraction is
  between in-range fields ordered by the header invariant, plain `Nat`
  subtraction coincides with the C++ value and is used directly.
* Slab memory is byte-addressed by `Nat`; `sizeof(Header) = 8` and
  `sizeof(void*) = 8` (the header packs three `uint16` plus padding into
  one 64-bit word).  A CPU's element region is modelled as a map from
  slot offset (in pointer-sized slots from the CPU's slab start) to the
  stored pointer value.
* Fatal checks are embedded in `Except Crash`.  `TC_CHECK*` crashes in
  every build; `ASSERT`/`TC_ASSERT*` is compiled out under `NDEBUG`, so
  the assert-guarded operations take a `debug : Bool` parameter and crash
  only when it is `true` (the repository's own `logging_test.cc` expects
  `TC_ASSERT(false)` to die only in non-`NDEBUG` builds while `TC_CHECK`
  dies unconditionally).
* Handler callbacks (`DrainHandler`, `ShrinkHandler`) are modelled by
  returning the list of invocations the code performs, in order, each
  recording the arguments handed to the handler.
-/

/-- A fatal error: `.check` for `TC_CHECK*` (fatal in every build), and
`.assertFail` for `ASSERT`/`TC_ASSERT*` (fatal only in debug builds). -/
inductive Crash where
  | check : String → Crash
  | assertFail : String → Crash
deriving DecidableEq, Repr

/-- The per-class header `{begin, current, end}`: three 16-bit slot
offsets from the CPU's slab start (`end` is spelled `end_`). -/
structure Header where
  begin : Nat
  current : Nat
  end_ : Nat
deriving DecidableEq, Repr

/-- The `uint16` typing of the header fields together with the documented
header invariant `begin ≤ current ≤ end`. -/
def Header.wf (h : Header) : Prop :=
  h.begin ≤ h.current ∧ h.current ≤ h.end_ ∧ h.end_ < 65536

instance (h : Header) : Decidable h.wf := by
  unfold Header.wf; infer_instance

/-- Pointwise update of a map, used for header arrays, slot stores and the
per-CPU `stopped` flags. -/
def upd {α : Type} (f : Nat → α) (i : Nat) (v : α) : Nat → α :=
  fun j => if j = i then v else f j

/-- `CpuMemoryStart(slabs, shift, cpu) = slabs + cpu * 2^shift` (byte
address of CPU `cpu`'s slab). -/
def cpuMemoryStart (slabs shift cpu : Nat) : Nat :=
  slabs + cpu * 2 ^ shift

/-- Byte address of slot `e` (pointer-sized) of CPU `cpu`'s slab; this is
the pointer value the code forms as `CpuMemoryStart(...) + e`. -/
def slotAddr (slabs shift cpu e : Nat) : Nat :=
  cpuMemoryStart slabs shift cpu + 8 * e

/-- `TcmallocSlab::GrowOtherCache` (body, after its debug-only stop-flag
assertion): `to_grow = min<uint16>(len, max_cap - (hdr.end - hdr.begin))`,
`hdr.end += to_grow`, returns `to_grow`.  Both `min` arguments pass
through `uint16_t`, hence the `% 65536`; `end` is a `uint16` field, hence
the wrap on the addition.  The operation reads the header word and writes
it back; no element slot is read or written (the embedding therefore does
not take the slot store at all). -/
def GrowOtherCache (hdr : Header) (len maxCap : Nat) : Header × Nat :=
  let to_grow := min (len % 65536) ((maxCap - (hdr.end_ - hdr.begin)) % 65536)
  ({ hdr with end_ := (hdr.end_ + to_grow) % 65536 }, to_grow)

/-- One invocation of the shrink handler: the size class, the batch
pointer passed (`CpuMemoryStart + (current - pop)` as a byte address),
the element count, and the pointers the handler reads from the batch. -/
structure ShrinkCall where
  sizeClass : Nat
  batch : Nat
  count : Nat
  ptrs : List Nat
deriving DecidableEq, Repr

/-- `TcmallocSlab::ShrinkOtherCache` (body, after its debug-only stop-flag
assertion).  `unused = uint16(hdr.end - hdr.current)`; if `unused < len`
(full-width `len`!) and the LIFO is non-empty, pops
`pop = min<uint16>(len - unused, hdr.current - hdr.begin)` elements,
handing the popped slot range to the shrink handler, and decreases
`current` by `pop`.  Then `to_shrink = min<uint16>(len, end - current)`,
`end -= to_shrink`, returns `to_shrink`.  Returns the new header, the
handler invocation (if any) and the returned amount. -/
def ShrinkOtherCache (slabs shift cpu : Nat) (slots : Nat → Nat)
    (sizeClass : Nat) (hdr : Header) (len : Nat) :
    Header × Option ShrinkCall × Nat :=
  let unused := hdr.end_ - hdr.current
  let popped : Header × Option ShrinkCall :=
    if unused < len ∧ hdr.current ≠ hdr.begin then
      let pop := min ((len - unused) % 65536) (hdr.current - hdr.begin)
      let start := hdr.current - pop
      ({ hdr with current := start },
       some ⟨sizeClass, slotAddr slabs shift cpu start, pop,
             (List.range pop).map (fun i => slots (start + i))⟩)
    else (hdr, none)
  let hdr1 := popped.1
  let to_shrink := min (len % 65536) (hdr1.end_ - hdr1.current)
  ({ hdr1 with end_ := hdr1.end_ - to_shrink }, popped.2, to_shrink)

/-- One invocation of the drain handler:
`drain_handler(cpu, size_class, batch, size, cap)` where `batch` is the
byte address of slot `begin`. -/
structure DrainCall where
  cpu : Nat
  sizeClass : Nat
  batch : Nat
  size : Nat
  cap : Nat
deriving DecidableEq, Repr

/-- The loop body of `TcmallocSlab::DrainCpu` over an explicit list of
size classes: for each class, load the header, invoke the drain handler
with `size = current - begin` and `cap = end - begin`, then store the
header back with `current = end = begin`. -/
def DrainCpuGo (slabs shift cpu : Nat) (hdrs : Nat → Header) :
    List Nat → (Nat → Header) × List DrainCall
  | [] => (hdrs, [])
  | k :: rest =>
    let hdr := hdrs k
    let call : DrainCall :=
      ⟨cpu, k, slotAddr slabs shift cpu hdr.begin,
       hdr.current - hdr.begin, hdr.end_ - hdr.begin⟩
    let hdrs1 := upd hdrs k ⟨hdr.begin, hdr.begin, hdr.begin⟩
    let res := DrainCpuGo slabs shift cpu hdrs1 rest
    (res.1, call :: res.2)

/-- `TcmallocSlab::DrainCpu` (body, after its debug-only stop-flag
assertion): iterates size classes `1 .. num_classes - 1` in increasing
order. -/
def DrainCpu (slabs shift cpu : Nat) (hdrs : Nat → Header)
    (numClasses : Nat) : (Nat → Header) × List DrainCall :=
  DrainCpuGo slabs shift cpu hdrs (List.range' 1 (numClasses - 1))

/-- `TcmallocSlab::StopCpu`: a debug-only range assertion, then the
always-fatal `TC_CHECK(!stopped_[cpu])`, then sets the flag.  (The
`FenceCpu` that follows has no effect on the state modelled here.) -/
def StopCpu (debug : Bool) (numCpus : Nat) (stopped : Nat → Bool)
    (cpu : Nat) : Except Crash (Nat → Bool) :=
  if debug ∧ ¬ cpu < numCpus then .error (.assertFail "cpu out of range")
  else if stopped cpu then .error (.check "cpu already stopped")
  else .ok (upd stopped cpu true)

/-- `TcmallocSlab::StartCpu`: debug-only assertions (range, flag set),
then clears the flag (with release ordering, immaterial here). -/
def StartCpu (debug : Bool) (numCpus : Nat) (stopped : Nat → Bool)
    (cpu : Nat) : Except Crash (Nat → Bool) :=
  if debug ∧ ¬ (cpu < numCpus ∧ stopped cpu = true) then
    .error (.assertFail "start cpu precondition")
  else .ok (upd stopped cpu false)

/-- `TcmallocSlab::Drain`: wraps `DrainCpu` in a `ScopedSlabCpuStop`.
Modelled from the spec: `ScopedSlabCpuStop` (declared in the header file,
not in the sources here) "wraps single-CPU control ops so the flag is
always released on all exit paths", i.e. `StopCpu` on entry and
`StartCpu` on exit. -/
def Drain (debug : Bool) (numCpus : Nat) (stopped : Nat → Bool)
    (slabs shift : Nat) (hdrs : Nat → Header) (numClasses cpu : Nat) :
    Except Crash ((Nat → Bool) × (Nat → Header) × List DrainCall) :=
  match StopCpu debug numCpus stopped cpu with
  | .error e => .error e
  | .ok stopped1 =>
    let res := DrainCpu slabs shift cpu hdrs numClasses
    match StartCpu debug numCpus stopped1 cpu with
    | .error e => .error e
    | .ok stopped2 => .ok (stopped2, res.1, res.2)

/-- The body of `TcmallocSlab::GrowOtherCache` including its entry
assertion `ASSERT(stopped_[cpu])`, which is compiled out under `NDEBUG`
(`debug = false`). -/
def GrowOtherCacheOp (debug : Bool) (stopped : Nat → Bool) (cpu : Nat)
    (hdr : Header) (len maxCap : Nat) : Except Crash (Header × Nat) :=
  if debug ∧ stopped cpu = false then .error (.assertFail "cpu not stopped")
  else .ok (GrowOtherCache hdr len maxCap)

/-- The body of `TcmallocSlab::ShrinkOtherCache` including its entry
assertion `ASSERT(stopped_[cpu])` (debug-only). -/
def ShrinkOtherCacheOp (debug : Bool) (stopped : Nat → Bool)
    (slabs shift cpu : Nat) (slots : Nat → Nat) (sizeClass : Nat)
    (hdr : Header) (len : Nat) :
    Except Crash (Header × Option ShrinkCall × Nat) :=
  if debug ∧ stopped cpu = false then .error (.assertFail "cpu not stopped")
  else .ok (ShrinkOtherCache slabs shift cpu slots sizeClass hdr len)

/-- State of one CPU's slab while `InitCpuImpl` runs: `elems` is the
running slot offset (the C++ `elems` pointer, in slots from the CPU's
slab start), `hdrs` the per-class headers, `slots` the element store. -/
structure CpuSlabState where
  elems : Nat
  hdrs : Nat → Header
  slots : Nat → Nat

/-- The loop of `TcmallocSlab::InitCpuImpl` over an explicit class list:
per class, `TC_CHECK_EQ(uint16(cap), cap)`; if `cap` is non-zero, write
the self-referential sentinel `*elems = elems` and advance `elems`; store
the header `begin = current = end = elems - curr_slab`; `elems += cap`;
crash with "per-CPU memory exceeded" if the bytes used so far exceed
`2^shift`. -/
def InitCpuClasses (slabs shift cpu : Nat) (capacity : Nat → Nat) :
    List Nat → CpuSlabState → Except Crash CpuSlabState
  | [], st => .ok st
  | k :: rest, st =>
    let cap := capacity k
    if ¬ cap % 65536 = cap then .error (.check "capacity fits uint16")
    else
      let se : (Nat → Nat) × Nat :=
        if cap ≠ 0 then
          (upd st.slots st.elems (slotAddr slabs shift cpu st.elems),
           st.elems + 1)
        else (st.slots, st.elems)
      let e1 := se.2
      let hdrs1 := upd st.hdrs k ⟨e1, e1, e1⟩
      let e2 := e1 + cap
      if 8 * e2 > 2 ^ shift then .error (.check "per-CPU memory exceeded")
      else InitCpuClasses slabs shift cpu capacity rest ⟨e2, hdrs1, se.1⟩

/-- `TcmallocSlab::InitCpuImpl`: `TC_CHECK(stopped_[cpu])` and
`TC_CHECK_LE(2^shift, 2^16 * sizeof(void*))`, then the class loop with
`elems` starting just past the `numClasses` headers (slot offset
`numClasses`, each header being one 8-byte word). -/
def InitCpuImpl (stopped : Nat → Bool) (slabs shift cpu numClasses : Nat)
    (capacity : Nat → Nat) (hdrs0 : Nat → Header) (slots0 : Nat → Nat) :
    Except Crash CpuSlabState :=
  if ¬ stopped cpu then .error (.check "cpu not stopped")
  else if ¬ 2 ^ shift ≤ 65536 * 8 then .error (.check "shift bound")
  else InitCpuClasses slabs shift cpu capacity
        (List.range' 1 (numClasses - 1)) ⟨numClasses, hdrs0, slots0⟩

/-- The capacity-validation loop of `TcmallocSlab::Init`: per class,
`TC_CHECK_EQ(uint16(cap), cap)`; zero-capacity classes are skipped
(`continue`) and reserve nothing; otherwise `consumed += (cap + 1) * 8`
and, if `consumed` exceeds `2^shift`, crash with
"per-CPU memory exceeded". -/
def InitLoop (capacity : Nat → Nat) (shift : Nat) :
    List Nat → Nat → Except Crash Nat
  | [], consumed => .ok consumed
  | k :: rest, consumed =>
    let cap := capacity k
    if ¬ cap % 65536 = cap then .error (.check "capacity fits uint16")
    else if cap = 0 then InitLoop capacity shift rest consumed
    else
      let consumed1 := consumed + (cap + 1) * 8
      if consumed1 > 2 ^ shift then .error (.check "per-CPU memory exceeded")
      else InitLoop capacity shift rest consumed1

/-- `TcmallocSlab::Init`: the debug-only double-init assertion
`ASSERT(num_classes_ == 0 && num_classes != 0)` (`numClassesPrev` is the
pre-call value of `num_classes_`), then the validation loop starting from
`num_classes * sizeof(Header)` bytes.  On success the stored
`(slabs, shift)` pair is returned (the store itself happens before the
loop; it is observable only if the process survives). -/
def Init (debug : Bool) (numClassesPrev numClasses slabs shift : Nat)
    (capacity : Nat → Nat) : Except Crash (Nat × Nat) :=
  if debug ∧ ¬ (numClassesPrev = 0 ∧ numClasses ≠ 0) then
    .error (.assertFail "double init")
  else
    match InitLoop capacity shift (List.range' 1 (numClasses - 1))
        (numClasses * 8) with
    | .error e => .error e
    | .ok _ => .ok (slabs, shift)

/-- The observable actions of `ResizeSlabs`, in program order: setting a
stop flag, initialising a populated CPU in the new slab (the body is
`InitCpuImpl` above), the all-CPU fence, the atomic store of the new
`(slabs, shift)` pair, draining a populated CPU from the old slab (the
body is `DrainCpu` above), and clearing a stop flag. -/
inductive REvent where
  | stopFlag (cpu : Nat)
  | initNewSlab (cpu : Nat)
  | fenceAll
  | publish (slabs shift : Nat)
  | drainOld (cpu : Nat)
  | startFlag (cpu : Nat)
deriving DecidableEq, Repr

/-- Phase 1 of `TcmallocSlab::ResizeSlabs` over an explicit CPU list: per
CPU, `TC_CHECK(!stopped_[cpu])` (always fatal), set the flag, and
initialise the CPU in the new slab when `populated(cpu)`. -/
def ResizePhase1 (populated : Nat → Bool) :
    (Nat → Bool) → List Nat → Except Crash ((Nat → Bool) × List REvent)
  | stopped, [] => .ok (stopped, [])
  | stopped, c :: rest =>
    if stopped c then .error (.check "cpu already stopped")
    else
      match ResizePhase1 populated (upd stopped c true) rest with
      | .error e => .error e
      | .ok (s, t) =>
        .ok (s, (REvent.stopFlag c ::
                 if populated c then [REvent.initNewSlab c] else []) ++ t)

/-- The final loop of `ResizeSlabs`: clear every CPU's stop flag. -/
def clearStops : (Nat → Bool) → List Nat → Nat → Bool
  | stopped, [] => stopped
  | stopped, c :: rest => clearStops (upd stopped c false) rest

/-- Modelled from the spec: `GetSlabsAllocSize` (declared in the header
file, not in the sources here); the slab set is "one contiguous region of
size `NumCPUs × 2^shift` bytes". -/
def GetSlabsAllocSize (shift numCpus : Nat) : Nat :=
  numCpus * 2 ^ shift

/-- The slab-set state visible to `ResizeSlabs`: the published
`(slabs, shift)` pair and the per-CPU stop flags. -/
structure SlabsState where
  slabs : Nat
  shift : Nat
  stopped : Nat → Bool

/-- `TcmallocSlab::ResizeSlabs`: the debug-only `TC_ASSERT_NE(new_shift,
old_shift)`; phase 1 (stop every CPU, initialising populated ones in the
new slab); `FenceAllCpus`; the atomic store of the new pair; draining
every populated CPU from the old slab; clearing every stop flag.  Returns
the new state, the event trace, and the pair
`(old_slabs, GetSlabsAllocSize(old_shift, num_cpus))`. -/
def ResizeSlabs (debug : Bool) (numCpus : Nat) (st : SlabsState)
    (newShift newSlabs : Nat) (populated : Nat → Bool) :
    Except Crash (SlabsState × List REvent × Nat × Nat) :=
  if debug ∧ newShift = st.shift then
    .error (.assertFail "new shift equals old shift")
  else
    match ResizePhase1 populated st.stopped (List.range numCpus) with
    | .error e => .error e
    | .ok (stopped1, t1) =>
      let trace := t1 ++ [REvent.fenceAll, REvent.publish newSlabs newShift]
        ++ ((List.range numCpus).filter (fun c => populated c)).map
            REvent.drainOld
        ++ (List.range numCpus).map REvent.startFlag
      .ok (⟨newSlabs, newShift, clearStops stopped1 (List.range numCpus)⟩,
           trace, st.slabs, GetSlabsAllocSize st.shift numCpus)

/-- Decidable equality for `Except` results over decidable payloads. -/
instance exceptDecEq {ε α : Type} [DecidableEq ε] [DecidableEq α] :
    DecidableEq (Except ε α) := fun x y =>
  match x, y with
  | .error a, .error b => decidable_of_iff (a = b) (by simp)
  | .error _, .ok _ => isFalse (by simp)
  | .ok _, .error _ => isFalse (by simp)
  | .ok a, .ok b => decidable_of_iff (a = b) (by simp)

/-- Projection: the header of class `k` after a successful `Drain`. -/
def drainHdrAt
    (r : Except Crash ((Nat → Bool) × (Nat → Header) × List DrainCall))
    (k : Nat) : Option Header :=
  match r with
  | .ok x => some (x.2.1 k)
  | .error _ => none

/-- Projection: the sizes handed to the drain handler by a successful
`Drain`, in invocation order. -/
def drainSizes
    (r : Except Crash ((Nat → Bool) × (Nat → Header) × List DrainCall)) :
    Option (List Nat) :=
  match r with
  | .ok x => some (x.2.2.map DrainCall.size)
  | .error _ => none

/-- The slot offset the `InitCpuImpl` loop advances past one class:
`capacity(k) + 1` slots (sentinel + capacity) for a class of non-zero
capacity, nothing for a zero-capacity class. -/
def elemsAfterClass (capacity : Nat → Nat) (e k : Nat) : Nat :=
  if capacity k ≠ 0 then e + capacity k + 1 else e

/-- The running `elems` offset before the `i`-th class of the block of
classes starting at `a`, starting from offset `e`. -/
def elemsBefore (capacity : Nat → Nat) (e a : Nat) : Nat → Nat
  | 0 => e
  | i + 1 => elemsAfterClass capacity (elemsBefore capacity e a i) (a + i)

/-- The `begin` offset `InitCpuImpl` assigns to the `i`-th class of the
block starting at `a`: the running offset, plus one sentinel slot when
the class has non-zero capacity. -/
def classBegin (capacity : Nat → Nat) (e a i : Nat) : Nat :=
  elemsBefore capacity e a i + (if capacity (a + i) ≠ 0 then 1 else 0)

/-- The bytes the `Init` validation loop accumulates for a class list:
`(capacity(k) + 1) * sizeof(void*)` per class of non-zero capacity. -/
def initWeight (capacity : Nat → Nat) (ks : List Nat) : Nat :=
  (ks.map fun k => if capacity k ≠ 0 then (capacity k + 1) * 8 else 0).sum

/-- The total byte count `Init` accounts against `2^shift`:
`num_classes * sizeof(Header)` plus the per-class element bytes. -/
def initTotalBytes (capacity : Nat → Nat) (numClasses : Nat) : Nat :=
  numClasses * 8 + initWeight capacity (List.range' 1 (numClasses - 1))

/-- Fixture for the `InitCpuImpl` witness: 3 classes, capacities
`1 ↦ 2, 2 ↦ 0`, shift 6, CPU 0 at slab base 0. -/
def c5Capacity : Nat → Nat := fun k => if k = 1 then 2 else 0

/-- The state `InitCpuImpl` computes on the `c5Capacity` fixture. -/
def c5Result : CpuSlabState :=
  ⟨6, upd (upd (fun _ => ⟨0, 0, 0⟩) 1 ⟨4, 4, 4⟩) 2 ⟨6, 6, 6⟩,
   upd (fun _ => 0) 3 (slotAddr 0 6 0 3)⟩

/-- C2 (amended): for a class with `end - begin ≤ maxCap` whose maximal
region fits the 16-bit slot space, `GrowOtherCache` returns
`g = min(len mod 2^16, maxCap - (end - begin))`, stores `end + g`, and
leaves `begin` and `current` unchanged (no element slot is read or
written: the embedding of the operation does not touch the slot store). -/
theorem growOtherCache_spec (hdr : Header) (len maxCap : Nat)
    (hwf : hdr.wf) (hcap : hdr.end_ - hdr.begin ≤ maxCap)
    (hfit : hdr.begin + maxCap < 65536) :
    GrowOtherCache hdr len maxCap =
      (⟨hdr.begin, hdr.current,
        hdr.end_ + min (len % 65536) (maxCap - (hdr.end_ - hdr.begin))⟩,
       min (len % 65536) (maxCap - (hdr.end_ - hdr.begin))) := by
  obtain ⟨h1, h2, h3⟩ := hwf
  simp only [GrowOtherCache]
  have hslack : (maxCap - (hdr.end_ - hdr.begin)) % 65536 =
      maxCap - (hdr.end_ - hdr.begin) := Nat.mod_eq_of_lt (by omega)
  rw [hslack]
  have hwrap : (hdr.end_ + min (len % 65536) (maxCap - (hdr.end_ - hdr.begin)))
      % 65536 =
      hdr.end_ + min (len % 65536) (maxCap - (hdr.end_ - hdr.begin)) :=
    Nat.mod_eq_of_lt (by omega)
  rw [hwrap]

/-- Witness for C2: the spec's concrete scenario, from header
`{100,100,100}` with max capacity 16, `GrowOtherCache(c, 3, 10, _)`
returns 10 and the header becomes `{100,100,110}`. -/
theorem growOtherCache_spec_witness :
    GrowOtherCache ⟨100, 100, 100⟩ 10 16 = (⟨100, 100, 110⟩, 10) := by
  rw [growOtherCache_spec ⟨100, 100, 100⟩ 10 16 (by decide) (by decide)
      (by decide)]
  decide

/-- Counterexample for C2 as stated: with `len = 2^16` on an empty class
of max capacity 16, the claimed return value `min(len, maxCap - (end -
begin)) = 16`, but the code truncates `len` to `uint16` first and returns
0, leaving the header unchanged. -/
theorem growOtherCache_len_not_truncated_cex :
    GrowOtherCache ⟨100, 100, 100⟩ 65536 16 = (⟨100, 100, 100⟩, 0) ∧
    min 65536 (16 - (100 - 100)) = 16 ∧ (0 : Nat) ≠ 16 := by decide

/-- C1 (amended): for a well-formed header with free capacity
`end - current < len`, a non-empty LIFO, and `len < 2^16`,
`ShrinkOtherCache` pops `p = min(len - (end - current), current - begin)`
elements, handing the handler the size class, the address of slot
`current - p` and the `p` pointers stored there, decreases `current` by
`p`, then decreases `end` by `s = min(len, end - current)` computed with
the updated `current`, and returns `s`. -/
theorem shrinkOtherCache_overflow_spec (slabs shift cpu : Nat)
    (slots : Nat → Nat) (k : Nat) (hdr : Header) (len : Nat)
    (hwf : hdr.wf) (hlen : len < 65536)
    (hover : hdr.end_ - hdr.current < len) (hne : hdr.current ≠ hdr.begin)
    (p s : Nat)
    (hp : p = min (len - (hdr.end_ - hdr.current)) (hdr.current - hdr.begin))
    (hs : s = min len (hdr.end_ - (hdr.current - p))) :
    ShrinkOtherCache slabs shift cpu slots k hdr len =
      (⟨hdr.begin, hdr.current - p, hdr.end_ - s⟩,
       some ⟨k, slotAddr slabs shift cpu (hdr.current - p), p,
             (List.range p).map (fun i => slots (hdr.current - p + i))⟩,
       s) := by
  obtain ⟨h1, h2, h3⟩ := hwf
  subst hp hs
  simp only [ShrinkOtherCache]
  rw [if_pos ⟨hover, hne⟩]
  have e1 : (len - (hdr.end_ - hdr.current)) % 65536 =
      len - (hdr.end_ - hdr.current) := Nat.mod_eq_of_lt (by omega)
  have e2 : len % 65536 = len := Nat.mod_eq_of_lt hlen
  rw [e1, e2]

/-- Witness for C1: the spec's concrete scenario, class 3 header
`{100,108,110}` and `len = 5`: the handler receives the 3 pointers in
slots 105..107, the final header is `{100,105,105}`, and 5 is returned. -/
theorem shrinkOtherCache_overflow_spec_witness :
    ShrinkOtherCache 0 20 0 (fun j => 7000 + j) 3 ⟨100, 108, 110⟩ 5 =
      (⟨100, 105, 105⟩,
       some ⟨3, slotAddr 0 20 0 105, 3, [7105, 7106, 7107]⟩, 5) := by
  rw [shrinkOtherCache_overflow_spec 0 20 0 (fun j => 7000 + j) 3
      ⟨100, 108, 110⟩ 5 (by decide) (by decide) (by decide) (by decide)
      3 5 (by decide) (by decide)]
  decide

/-- Counterexample for C1 as stated: with `len = 2^16 + 3` on header
`{0,10,12}` the claimed pop count is `min(len - (end - current),
current - begin) = 10`, but the code computes `len - unused` in `uint16`,
pops only `min((65539 - 2) mod 2^16, 10) = 1` element, and the handler
receives 1 pointer. -/
theorem shrinkOtherCache_len_not_truncated_cex :
    (ShrinkOtherCache 0 20 0 (fun _ => 0) 3 ⟨0, 10, 12⟩ 65539).2.1 =
      some ⟨3, slotAddr 0 20 0 9, 1, [0]⟩ ∧
    min (65539 - (12 - 10)) (10 - 0) = 10 ∧ (1 : Nat) ≠ 10 := by decide

/-- For a well-formed header, the amount `ShrinkOtherCache` returns (the
amount shrunk) depends on `len` only through `len mod 2^16`: the
full-width guard `unused < len` can change which elements are popped, but
never the returned `to_shrink`. -/
theorem shrinkOtherCache_ret_mod (slabs shift cpu : Nat) (slots : Nat → Nat)
    (k : Nat) (hdr : Header) (len : Nat) (hwf : hdr.wf) :
    (ShrinkOtherCache slabs shift cpu slots k hdr len).2.2 =
      (ShrinkOtherCache slabs shift cpu slots k hdr (len % 65536)).2.2 := by
  obtain ⟨h1, h2, h3⟩ := hwf
  by_cases hcb : hdr.current = hdr.begin
  · simp only [ShrinkOtherCache, hcb, ne_eq, not_true_eq_false, and_false,
      if_false]
    omega
  · simp only [ShrinkOtherCache, ne_eq, hcb, not_false_eq_true, and_true]
    split_ifs with hA hB hB
    · simp only
      omega
    · simp only
      omega
    · simp only
      omega
    · simp only
      omega

/-- C9 (amended): `GrowOtherCache` truncates `len` to 16 bits, so its
whole result (amount grown and stored header) is computed from
`len mod 2^16`; in particular `len = 2^16` on a non-full class returns 0
and leaves the header unchanged.  In `ShrinkOtherCache` the returned
amount shrunk likewise depends on `len` only through `len mod 2^16` —
but the guard `unused < len` compares the full-width `len`, so the
number of elements popped does not (see the counterexample). -/
theorem grow_shrink_len_truncation (hdr : Header) (len maxCap : Nat)
    (slabs shift cpu : Nat) (slots : Nat → Nat) (k : Nat) (hwf : hdr.wf) :
    GrowOtherCache hdr len maxCap = GrowOtherCache hdr (len % 65536) maxCap ∧
    (ShrinkOtherCache slabs shift cpu slots k hdr len).2.2 =
      (ShrinkOtherCache slabs shift cpu slots k hdr (len % 65536)).2.2 ∧
    GrowOtherCache ⟨100, 100, 100⟩ 65536 16 = (⟨100, 100, 100⟩, 0) := by
  refine ⟨?_, shrinkOtherCache_ret_mod slabs shift cpu slots k hdr len hwf,
    by decide⟩
  have h : len % 65536 % 65536 = len % 65536 := by omega
  simp only [GrowOtherCache, h]

/-- Witness for C9 (amended), at header `{0,3,5}` and `len = 70000`. -/
theorem grow_shrink_len_truncation_witness :
    GrowOtherCache ⟨0, 3, 5⟩ 70000 16 = GrowOtherCache ⟨0, 3, 5⟩ (70000 % 65536) 16 ∧
    (ShrinkOtherCache 0 20 0 (fun _ => 0) 3 ⟨0, 3, 5⟩ 70000).2.2 =
      (ShrinkOtherCache 0 20 0 (fun _ => 0) 3 ⟨0, 3, 5⟩ (70000 % 65536)).2.2 ∧
    GrowOtherCache ⟨100, 100, 100⟩ 65536 16 = (⟨100, 100, 100⟩, 0) :=
  grow_shrink_len_truncation ⟨0, 3, 5⟩ 70000 16 0 20 0 (fun _ => 0) 3
    (by decide)

/-- Counterexample for C9 as stated: the number of elements popped by
`ShrinkOtherCache` is not computed from `len mod 2^16`.  On header
`{0,3,5}` with `len = 2^16` the guard `unused < len` holds and 3 elements
are popped (handler invoked with count 3), while with the congruent
`len = 2^16 mod 2^16 = 0` no element is popped (handler not invoked). -/
theorem shrink_pop_count_not_mod_cex :
    (ShrinkOtherCache 0 20 0 (fun _ => 0) 3 ⟨0, 3, 5⟩ 65536).2.1 =
      some ⟨3, slotAddr 0 20 0 0, 3, [0, 0, 0]⟩ ∧
    (ShrinkOtherCache 0 20 0 (fun _ => 0) 3 ⟨0, 3, 5⟩ (65536 % 65536)).2.1 =
      none := by decide

/-- Characterisation of the `DrainCpu` loop over a duplicate-free class
list: every listed class's header is stored back as
`{begin, begin, begin}`, other classes are untouched, and the handler is
invoked once per listed class, in list order, with
`(cpu, k, &slots[begin], current - begin, end - begin)`. -/
theorem drainCpuGo_spec (slabs shift cpu : Nat) :
    ∀ (ks : List Nat), ks.Nodup → ∀ (hdrs : Nat → Header),
    DrainCpuGo slabs shift cpu hdrs ks =
      (fun k => if k ∈ ks then
          ⟨(hdrs k).begin, (hdrs k).begin, (hdrs k).begin⟩ else hdrs k,
       ks.map fun k =>
         ⟨cpu, k, slotAddr slabs shift cpu (hdrs k).begin,
          (hdrs k).current - (hdrs k).begin,
          (hdrs k).end_ - (hdrs k).begin⟩) := by
  intro ks
  induction ks with
  | nil =>
    intro _ hdrs
    refine Prod.ext ?_ rfl
    funext j
    simp [DrainCpuGo]
  | cons k rest ih =>
    intro hnd hdrs
    obtain ⟨hk, hrest⟩ := List.nodup_cons.mp hnd
    simp only [DrainCpuGo]
    rw [ih hrest]
    refine Prod.ext ?_ ?_
    · funext j
      by_cases hj : j = k
      · subst hj
        simp [upd, hk]
      · by_cases hr : j ∈ rest <;> simp [upd, hj, hr, List.mem_cons]
    · simp only [List.map_cons, upd, if_pos rfl]
      refine congrArg₂ List.cons rfl ?_
      refine List.map_congr_left ?_
      intro j hj
      have hjk : j ≠ k := fun h => hk (h ▸ hj)
      simp [upd, hjk]

/-- C4: `Drain(c, handler)` stops CPU `c` (and restores its flag), and
for every size class `k` in `1 .. num_classes - 1` in increasing order
invokes `handler(c, k, address of slot begin, current - begin,
end - begin)` and stores back a header with `current = end = begin`;
class 0 is never passed to the handler. -/
theorem drain_spec (debug : Bool) (numCpus : Nat) (stopped : Nat → Bool)
    (slabs shift : Nat) (hdrs : Nat → Header) (n cpu : Nat)
    (hstop : stopped cpu = false) (hcpu : cpu < numCpus) :
    Drain debug numCpus stopped slabs shift hdrs n cpu =
      .ok (upd (upd stopped cpu true) cpu false,
           fun k => if 1 ≤ k ∧ k < n then
             ⟨(hdrs k).begin, (hdrs k).begin, (hdrs k).begin⟩ else hdrs k,
           (List.range' 1 (n - 1)).map fun k =>
             ⟨cpu, k, slotAddr slabs shift cpu (hdrs k).begin,
              (hdrs k).current - (hdrs k).begin,
              (hdrs k).end_ - (hdrs k).begin⟩) ∧
    (∀ c, upd (upd stopped cpu true) cpu false c = stopped c) ∧
    (∀ call ∈ (List.range' 1 (n - 1)).map fun k =>
        (⟨cpu, k, slotAddr slabs shift cpu (hdrs k).begin,
          (hdrs k).current - (hdrs k).begin,
          (hdrs k).end_ - (hdrs k).begin⟩ : DrainCall),
      call.sizeClass ≠ 0) := by
  have s1 : StopCpu debug numCpus stopped cpu = .ok (upd stopped cpu true) := by
    unfold StopCpu
    rw [if_neg (by simp [hcpu]), if_neg (by simp [hstop])]
  have s2 : StartCpu debug numCpus (upd stopped cpu true) cpu =
      .ok (upd (upd stopped cpu true) cpu false) := by
    unfold StartCpu
    rw [if_neg (by simp [upd, hcpu])]
  refine ⟨?_, ?_, ?_⟩
  · simp only [Drain, s1, s2, DrainCpu,
      drainCpuGo_spec slabs shift cpu _ (List.nodup_range' ..) hdrs]
    refine congrArg Except.ok (Prod.ext rfl (Prod.ext ?_ rfl))
    funext j
    have hiff : (j ∈ List.range' 1 (n - 1)) ↔ (1 ≤ j ∧ j < n) := by
      rw [List.mem_range'_1]
      omega
    simp only [hiff]
  · intro c
    by_cases hc : c = cpu <;> simp [upd, hc, hstop]
  · intro call hcall
    simp only [List.mem_map] at hcall
    obtain ⟨j, hj, rfl⟩ := hcall
    rw [List.mem_range'_1] at hj
    simp only [ne_eq]
    omega

/-- Witness for C4: two CPUs, three classes, concrete headers. -/
theorem drain_spec_witness :
    Drain false 2 (fun _ => false) 0 18 (fun k => ⟨10 * k, 10 * k + 2, 10 * k + 5⟩) 3 0 =
      .ok (upd (upd (fun _ => false) 0 true) 0 false,
           fun k => if 1 ≤ k ∧ k < 3 then
             ⟨((fun k => (⟨10 * k, 10 * k + 2, 10 * k + 5⟩ : Header)) k).begin,
              ((fun k => (⟨10 * k, 10 * k + 2, 10 * k + 5⟩ : Header)) k).begin,
              ((fun k => (⟨10 * k, 10 * k + 2, 10 * k + 5⟩ : Header)) k).begin⟩
           else (fun k => (⟨10 * k, 10 * k + 2, 10 * k + 5⟩ : Header)) k,
           (List.range' 1 (3 - 1)).map fun k =>
             ⟨0, k, slotAddr 0 18 0 ((fun k => (⟨10 * k, 10 * k + 2, 10 * k + 5⟩ : Header)) k).begin,
              ((fun k => (⟨10 * k, 10 * k + 2, 10 * k + 5⟩ : Header)) k).current -
                ((fun k => (⟨10 * k, 10 * k + 2, 10 * k + 5⟩ : Header)) k).begin,
              ((fun k => (⟨10 * k, 10 * k + 2, 10 * k + 5⟩ : Header)) k).end_ -
                ((fun k => (⟨10 * k, 10 * k + 2, 10 * k + 5⟩ : Header)) k).begin⟩) :=
  (drain_spec false 2 (fun _ => false) 0 18
    (fun k => ⟨10 * k, 10 * k + 2, 10 * k + 5⟩) 3 0 rfl (by decide)).1

/-- C3 (amended): `Drain` on a CPU whose every class has
`current == begin` delivers a size-0 batch for every drained class; each
drained class's header is stored back as `{begin, begin, begin}`, so a
header whose `end` already equals `begin` is unchanged, while a class
with `end > begin` has its `end` reset to `begin` (its capacity is
released, not preserved). -/
theorem drain_empty_spec (debug : Bool) (numCpus : Nat)
    (stopped : Nat → Bool) (slabs shift : Nat) (hdrs : Nat → Header)
    (n cpu : Nat) (hstop : stopped cpu = false) (hcpu : cpu < numCpus)
    (hempty : ∀ k, 1 ≤ k → k < n → (hdrs k).current = (hdrs k).begin) :
    ∀ stopped2 hdrs2 calls,
      Drain debug numCpus stopped slabs shift hdrs n cpu =
        .ok (stopped2, hdrs2, calls) →
      (∀ call ∈ calls, call.size = 0) ∧
      (∀ k, 1 ≤ k → k < n →
        hdrs2 k = ⟨(hdrs k).begin, (hdrs k).begin, (hdrs k).begin⟩) ∧
      (∀ k, (hdrs k).end_ = (hdrs k).begin → hdrs2 k = hdrs k) := by
  have s1 : StopCpu debug numCpus stopped cpu = .ok (upd stopped cpu true) := by
    unfold StopCpu
    rw [if_neg (by simp [hcpu]), if_neg (by simp [hstop])]
  have s2 : StartCpu debug numCpus (upd stopped cpu true) cpu =
      .ok (upd (upd stopped cpu true) cpu false) := by
    unfold StartCpu
    rw [if_neg (by simp [upd, hcpu])]
  intro stopped2 hdrs2 calls h
  rw [Drain, s1] at h
  simp only [DrainCpu,
    drainCpuGo_spec slabs shift cpu _ (List.nodup_range' ..) hdrs, s2] at h
  obtain ⟨h1, h2, h3⟩ : stopped2 = _ ∧ hdrs2 = _ ∧ calls = _ := by
    have := (Except.ok.injEq _ _).mp h.symm
    exact ⟨congrArg Prod.fst this, congrArg (fun x => x.2.1) this,
      congrArg (fun x => x.2.2) this⟩
  subst h2 h3
  refine ⟨?_, ?_, ?_⟩
  · intro call hcall
    simp only [List.mem_map] at hcall
    obtain ⟨j, hj, rfl⟩ := hcall
    rw [List.mem_range'_1] at hj
    have := hempty j hj.1 (by omega)
    simp [this]
  · intro k hk1 hk2
    have hmem : k ∈ List.range' 1 (n - 1) := by
      rw [List.mem_range'_1]; omega
    simp [hmem]
  · intro k hke
    by_cases hmem : k ∈ List.range' 1 (n - 1)
    · have hk : 1 ≤ k ∧ k < n := by
        rw [List.mem_range'_1] at hmem; omega
      have hc := hempty k hk.1 hk.2
      have : hdrs k = ⟨(hdrs k).begin, (hdrs k).current, (hdrs k).end_⟩ := rfl
      simp only [hmem, if_pos]
      rw [this, hc, hke]
    · simp [hmem]

/-- Witness for C3 (amended): an empty class with spare capacity
(`{100,100,110}`) on CPU 0. -/
theorem drain_empty_spec_witness :
    (∀ call ∈ [(⟨0, 1, slotAddr 0 18 0 100, 0, 10⟩ : DrainCall)],
       call.size = 0) ∧
    (∀ k, 1 ≤ k → k < 2 →
      (fun j => if 1 ≤ j ∧ j < 2 then (⟨100, 100, 100⟩ : Header)
                else ⟨100, 100, 110⟩) k =
        ⟨((fun _ => (⟨100, 100, 110⟩ : Header)) k).begin,
         ((fun _ => (⟨100, 100, 110⟩ : Header)) k).begin,
         ((fun _ => (⟨100, 100, 110⟩ : Header)) k).begin⟩) ∧
    (∀ k, ((fun _ => (⟨100, 100, 110⟩ : Header)) k).end_ =
        ((fun _ => (⟨100, 100, 110⟩ : Header)) k).begin →
      (fun j => if 1 ≤ j ∧ j < 2 then (⟨100, 100, 100⟩ : Header)
                else ⟨100, 100, 110⟩) k = (fun _ => (⟨100, 100, 110⟩ : Header)) k) := by
  have h := drain_empty_spec false 1 (fun _ => false) 0 18
    (fun _ => ⟨100, 100, 110⟩) 2 0 rfl (by decide)
    (by intro k h1 h2; rfl)
    (upd (upd (fun _ => false) 0 true) 0 false)
    (fun j => if 1 ≤ j ∧ j < 2 then (⟨100, 100, 100⟩ : Header)
              else ⟨100, 100, 110⟩)
    [⟨0, 1, slotAddr 0 18 0 100, 0, 10⟩] ?_
  · exact h
  · unfold Drain StopCpu StartCpu DrainCpu
    rw [if_neg (by simp), if_neg (by simp)]
    simp only [drainCpuGo_spec 0 18 0 _ (List.nodup_range' ..) _]
    rw [if_neg (by simp [upd])]
    refine congrArg Except.ok (Prod.ext rfl (Prod.ext ?_ (by decide)))
    funext j
    by_cases hj : 1 ≤ j ∧ j < 2
    · have : j ∈ List.range' 1 1 := by rw [List.mem_range'_1]; omega
      simp only [this, if_pos, hj]
      simp
    · have : ¬ j ∈ List.range' 1 1 := by rw [List.mem_range'_1]; omega
      simp only [if_neg this, if_neg hj]

/-- Counterexample for C3 as stated: on a CPU whose single class has
`current == begin` but `end > begin` (header `{100,100,110}`), `Drain`
delivers a size-0 batch but stores back `{100,100,100}`, not the original
triple — the header is changed. -/
theorem drain_empty_changes_header_cex :
    drainHdrAt (Drain false 1 (fun _ => false) 0 18
      (fun _ => ⟨100, 100, 110⟩) 2 0) 1 = some ⟨100, 100, 100⟩ ∧
    drainSizes (Drain false 1 (fun _ => false) 0 18
      (fun _ => ⟨100, 100, 110⟩) 2 0) = some [0] ∧
    (⟨100, 100, 100⟩ : Header) ≠ ⟨100, 100, 110⟩ := by decide


/-- Unrolling `elemsBefore` from the left: the running offset over
`i + 1` classes starting at `a` is the offset over `i` classes starting
at `a + 1` from the advanced base. -/
theorem elemsBefore_succ (capacity : Nat → Nat) (e a : Nat) :
    ∀ i, elemsBefore capacity e a (i + 1) =
      elemsBefore capacity (elemsAfterClass capacity e a) (a + 1) i := by
  intro i
  induction i with
  | zero => rfl
  | succ i ihi =>
    show elemsAfterClass capacity (elemsBefore capacity e a (i + 1)) (a + (i + 1)) =
      elemsAfterClass capacity
        (elemsBefore capacity (elemsAfterClass capacity e a) (a + 1) i) (a + 1 + i)
    rw [ihi]
    congr 1
    omega

/-- Loop invariant of `InitCpuClasses` over a contiguous class block
`a, a+1, …, a+m-1` starting from running offset `e`: on success, the
final offset is `elemsBefore … m`; headers outside the block are
untouched; the `i`-th processed class's header is the empty LIFO at its
computed `begin`; slots below `e` are untouched; and every non-zero
class's sentinel slot (at its running offset, i.e. `begin - 1`) holds
its own address. -/
theorem initCpuClasses_spec (slabs shift cpu : Nat) (capacity : Nat → Nat) :
    ∀ (m a e : Nat) (hdrs : Nat → Header) (slots : Nat → Nat)
      (st' : CpuSlabState),
    InitCpuClasses slabs shift cpu capacity (List.range' a m)
        ⟨e, hdrs, slots⟩ = .ok st' →
    st'.elems = elemsBefore capacity e a m ∧
    (∀ k, k < a ∨ a + m ≤ k → st'.hdrs k = hdrs k) ∧
    (∀ i, i < m → st'.hdrs (a + i) =
      ⟨classBegin capacity e a i, classBegin capacity e a i,
       classBegin capacity e a i⟩) ∧
    (∀ j, j < e → st'.slots j = slots j) ∧
    (∀ i, i < m → capacity (a + i) ≠ 0 →
      st'.slots (elemsBefore capacity e a i) =
        slotAddr slabs shift cpu (elemsBefore capacity e a i)) := by
  intro m
  induction m with
  | zero =>
    intro a e hdrs slots st' h
    simp only [List.range'_zero, InitCpuClasses] at h
    injection h with h
    subst h
    exact ⟨rfl, fun k _ => rfl, fun i hi => absurd hi (by omega),
      fun j _ => rfl, fun i hi => absurd hi (by omega)⟩
  | succ m ih =>
    intro a e hdrs slots st' h
    rw [List.range'_succ] at h
    simp only [InitCpuClasses] at h
    by_cases hfit : capacity a % 65536 = capacity a
    case neg =>
      rw [if_pos hfit] at h
      simp at h
    rw [if_neg (not_not_intro hfit)] at h
    by_cases hc : capacity a = 0
    · simp only [hc, ne_eq, not_true_eq_false, if_false, Nat.add_zero] at h
      have hea : elemsAfterClass capacity e a = e := by
        simp [elemsAfterClass, hc]
      split at h
      · simp at h
      obtain ⟨ih1, ih2, ih3, ih4, ih5⟩ :=
        ih (a + 1) e (upd hdrs a ⟨e, e, e⟩) slots st' h
      refine ⟨?_, ?_, ?_, ?_, ?_⟩
      · rw [elemsBefore_succ, hea]
        exact ih1
      · intro k hk
        rw [ih2 k (by omega)]
        have hka : k ≠ a := by omega
        simp [upd, hka]
      · intro i hi
        match i with
        | 0 =>
          rw [Nat.add_zero, ih2 a (by omega)]
          have : classBegin capacity e a 0 = e := by
            simp [classBegin, elemsBefore, hc]
          rw [this]
          simp [upd]
        | i + 1 =>
          have hidx : a + (i + 1) = a + 1 + i := by omega
          have hcb : classBegin capacity e a (i + 1) =
              classBegin capacity e (a + 1) i := by
            simp only [classBegin, elemsBefore_succ, hea, hidx]
          rw [hidx, hcb]
          exact ih3 i (by omega)
      · intro j hj
        exact ih4 j hj
      · intro i hi hcap
        match i with
        | 0 =>
          rw [Nat.add_zero] at hcap
          exact absurd hc hcap
        | i + 1 =>
          have hidx : a + (i + 1) = a + 1 + i := by omega
          have heb : elemsBefore capacity e a (i + 1) =
              elemsBefore capacity e (a + 1) i := by
            rw [elemsBefore_succ, hea]
          rw [heb]
          rw [hidx] at hcap
          exact ih5 i (by omega) hcap
    · simp only [hc, ne_eq, not_false_eq_true, if_true] at h
      have hea : elemsAfterClass capacity e a = e + 1 + capacity a := by
        simp only [elemsAfterClass, ne_eq, hc, not_false_eq_true, if_pos]
        omega
      split at h
      · simp at h
      obtain ⟨ih1, ih2, ih3, ih4, ih5⟩ :=
        ih (a + 1) (e + 1 + capacity a) (upd hdrs a ⟨e + 1, e + 1, e + 1⟩)
          (upd slots e (slotAddr slabs shift cpu e)) st' h
      refine ⟨?_, ?_, ?_, ?_, ?_⟩
      · rw [elemsBefore_succ, hea]
        exact ih1
      · intro k hk
        rw [ih2 k (by omega)]
        have hka : k ≠ a := by omega
        simp [upd, hka]
      · intro i hi
        match i with
        | 0 =>
          rw [Nat.add_zero, ih2 a (by omega)]
          have : classBegin capacity e a 0 = e + 1 := by
            simp [classBegin, elemsBefore, hc]
          rw [this]
          simp [upd]
        | i + 1 =>
          have hidx : a + (i + 1) = a + 1 + i := by omega
          have hcb : classBegin capacity e a (i + 1) =
              classBegin capacity (e + 1 + capacity a) (a + 1) i := by
            simp only [classBegin, elemsBefore_succ, hea, hidx]
          rw [hidx, hcb]
          exact ih3 i (by omega)
      · intro j hj
        rw [ih4 j (by omega)]
        have hje : j ≠ e := by omega
        simp [upd, hje]
      · intro i hi hcap
        match i with
        | 0 =>
          have heb : elemsBefore capacity e a 0 = e := rfl
          rw [heb, ih4 e (by omega)]
          simp [upd]
        | i + 1 =>
          have hidx : a + (i + 1) = a + 1 + i := by omega
          have heb : elemsBefore capacity e a (i + 1) =
              elemsBefore capacity (e + 1 + capacity a) (a + 1) i := by
            rw [elemsBefore_succ, hea]
          rw [heb]
          rw [hidx] at hcap
          exact ih5 i (by omega) hcap

/-- C5: after a successful `InitCpuImpl` (the body of `InitCpu`, which
runs it on the stopped CPU), every size class `k ∈ [1, num_classes)` has
`begin = current = end` (empty LIFO) equal to the running offset
`classBegin`, which starts just past the header region (slot
`num_classes`) and reserves `capacity(k) + 1` slots per non-zero class;
and every non-zero class's slot `begin - 1` holds its own address. -/
theorem initCpuImpl_layout (stopped : Nat → Bool) (slabs shift cpu n : Nat)
    (capacity : Nat → Nat) (hdrs0 : Nat → Header) (slots0 : Nat → Nat)
    (st' : CpuSlabState)
    (h : InitCpuImpl stopped slabs shift cpu n capacity hdrs0 slots0 =
      .ok st') :
    ∀ k, 1 ≤ k → k < n →
      st'.hdrs k = ⟨classBegin capacity n 1 (k - 1),
        classBegin capacity n 1 (k - 1), classBegin capacity n 1 (k - 1)⟩ ∧
      (capacity k ≠ 0 →
        st'.slots (classBegin capacity n 1 (k - 1) - 1) =
          slotAddr slabs shift cpu (classBegin capacity n 1 (k - 1) - 1)) := by
  unfold InitCpuImpl at h
  split at h
  · simp at h
  split at h
  · simp at h
  obtain ⟨ih1, ih2, ih3, ih4, ih5⟩ :=
    initCpuClasses_spec slabs shift cpu capacity (n - 1) 1 n hdrs0 slots0 st' h
  intro k hk1 hk2
  have hik : 1 + (k - 1) = k := by omega
  constructor
  · have h3 := ih3 (k - 1) (by omega)
    rw [hik] at h3
    exact h3
  · intro hcap
    have hcap' : capacity (1 + (k - 1)) ≠ 0 := by rw [hik]; exact hcap
    have hb : classBegin capacity n 1 (k - 1) - 1 =
        elemsBefore capacity n 1 (k - 1) := by
      simp [classBegin, hcap']
    have h5 := ih5 (k - 1) (by omega) hcap'
    rw [hb]
    exact h5

/-- Witness for C5 on the `c5Capacity` fixture: class 1 (capacity 2) gets
the empty LIFO at offset 4 (headers occupy slots 0..2, the sentinel slot
3), and slot 3 holds its own address. -/
theorem initCpuImpl_layout_witness :
    c5Result.hdrs 1 = ⟨classBegin c5Capacity 3 1 (1 - 1),
      classBegin c5Capacity 3 1 (1 - 1), classBegin c5Capacity 3 1 (1 - 1)⟩ ∧
    (c5Capacity 1 ≠ 0 →
      c5Result.slots (classBegin c5Capacity 3 1 (1 - 1) - 1) =
        slotAddr 0 6 0 (classBegin c5Capacity 3 1 (1 - 1) - 1)) :=
  initCpuImpl_layout (fun _ => true) 0 6 0 3 c5Capacity (fun _ => ⟨0, 0, 0⟩)
    (fun _ => 0) c5Result rfl 1 (by decide) (by decide)

/-- A class list with only zero capacities accumulates no bytes. -/
theorem initWeight_zero (capacity : Nat → Nat) :
    ∀ ks : List Nat, (∀ k ∈ ks, capacity k = 0) →
      initWeight capacity ks = 0 := by
  intro ks h
  refine List.sum_eq_zero ?_
  intro x hx
  simp only [List.mem_map] at hx
  obtain ⟨k, hk, rfl⟩ := hx
  simp [h k hk]

/-- `initWeight` over a cons. -/
theorem initWeight_cons (capacity : Nat → Nat) (k : Nat) (ks : List Nat) :
    initWeight capacity (k :: ks) =
      (if capacity k ≠ 0 then (capacity k + 1) * 8 else 0) +
        initWeight capacity ks := by
  simp [initWeight]

/-- The `Init` validation loop succeeds iff every listed capacity fits in
16 bits and either the accumulated total stays within `2^shift` or every
listed capacity is zero (in which case no overflow check ever runs). -/
theorem initLoop_ok_iff (capacity : Nat → Nat) (shift : Nat) :
    ∀ (ks : List Nat) (consumed : Nat),
    (∃ c', InitLoop capacity shift ks consumed = .ok c') ↔
      ((∀ k ∈ ks, capacity k % 65536 = capacity k) ∧
       (consumed + initWeight capacity ks ≤ 2 ^ shift ∨
        ∀ k ∈ ks, capacity k = 0)) := by
  intro ks
  induction ks with
  | nil =>
    intro consumed
    simp [InitLoop, initWeight]
  | cons k rest ih =>
    intro consumed
    simp only [InitLoop]
    by_cases hfit : capacity k % 65536 = capacity k
    · rw [if_neg (not_not_intro hfit)]
      by_cases hc : capacity k = 0
      · rw [if_pos hc, ih consumed, initWeight_cons]
        simp only [hc, ne_eq, not_true_eq_false, if_false, Nat.zero_add,
          List.forall_mem_cons, hfit]
        tauto
      · rw [if_neg hc]
        by_cases hov : consumed + (capacity k + 1) * 8 > 2 ^ shift
        · rw [if_pos hov]
          constructor
          · rintro ⟨c', hc'⟩
            exact absurd hc' (by simp)
          · rintro ⟨-, hrem⟩
            rcases hrem with hle | hzero
            · rw [initWeight_cons] at hle
              simp only [ne_eq, hc, not_false_eq_true, if_true] at hle
              omega
            · exact absurd (hzero k (by simp)) hc
        · rw [if_neg hov, ih (consumed + (capacity k + 1) * 8),
            initWeight_cons]
          simp only [ne_eq, hc, not_false_eq_true, if_true,
            List.forall_mem_cons, hfit, true_and]
          constructor
          · rintro ⟨hf, hrem⟩
            refine ⟨hf, ?_⟩
            left
            rcases hrem with hle | hzero
            · omega
            · have := initWeight_zero capacity rest hzero
              omega
          · rintro ⟨hf, hrem⟩
            refine ⟨hf, ?_⟩
            rcases hrem with hle | hzero
            · left; omega
            · exact hzero.1.elim
    · rw [if_pos hfit]
      constructor
      · rintro ⟨c', hc'⟩
        exact absurd hc' (by simp)
      · rintro ⟨hf, -⟩
        exact absurd (hf k (by simp)) hfit

/-- When every capacity fits, the total crosses `2^shift`, and some
listed class has non-zero capacity, the `Init` loop crashes with the
"per-CPU memory exceeded" check. -/
theorem initLoop_memory_exceeded (capacity : Nat → Nat) (shift : Nat) :
    ∀ (ks : List Nat) (consumed : Nat),
    (∀ k ∈ ks, capacity k % 65536 = capacity k) →
    2 ^ shift < consumed + initWeight capacity ks →
    (∃ k ∈ ks, capacity k ≠ 0) →
    InitLoop capacity shift ks consumed =
      .error (.check "per-CPU memory exceeded") := by
  intro ks
  induction ks with
  | nil =>
    intro consumed _ _ hex
    simp at hex
  | cons k rest ih =>
    intro consumed hf hov hex
    simp only [InitLoop]
    have hfitk := hf k (by simp)
    rw [if_neg (not_not_intro hfitk)]
    by_cases hc : capacity k = 0
    · rw [if_pos hc]
      rw [initWeight_cons] at hov
      simp only [hc, ne_eq, not_true_eq_false, if_false, Nat.zero_add] at hov
      refine ih consumed (fun k' hk' => hf k' (by simp [hk'])) hov ?_
      obtain ⟨k', hk', hck'⟩ := hex
      rcases List.mem_cons.mp hk' with rfl | hk'
      · exact absurd hc hck'
      · exact ⟨k', hk', hck'⟩
    · rw [if_neg hc]
      rw [initWeight_cons] at hov
      simp only [ne_eq, hc, not_false_eq_true, if_true] at hov
      by_cases hov1 : consumed + (capacity k + 1) * 8 > 2 ^ shift
      · rw [if_pos hov1]
      · rw [if_neg hov1]
        refine ih (consumed + (capacity k + 1) * 8)
          (fun k' hk' => hf k' (by simp [hk'])) (by omega) ?_
        by_contra hnone
        push_neg at hnone
        have := initWeight_zero capacity rest hnone
        omega

/-- C6 (amended): with `num_classes ≠ 0` (asserted) and `num_classes_`
previously 0, `Init` validates every capacity against its 16-bit
truncation and accumulates `num_classes * sizeof(Header)` plus
`(capacity(k)+1) * sizeof(void*)` per non-zero class; it returns normally
with the stored `(base, shift)` iff all capacities fit and either the
total stays within `2^shift` or every class has zero capacity — in the
all-zero case the overflow check never runs, so `Init` returns normally
even when the header bytes alone exceed `2^shift`.  Whenever all
capacities fit, the total crosses `2^shift` and some class is non-zero,
it crashes with "per-CPU memory exceeded". -/
theorem init_spec (debug : Bool) (n slabs shift : Nat)
    (capacity : Nat → Nat) (hn : n ≠ 0) :
    (Init debug 0 n slabs shift capacity = .ok (slabs, shift) ↔
      (∀ k, 1 ≤ k → k < n → capacity k % 65536 = capacity k) ∧
      (initTotalBytes capacity n ≤ 2 ^ shift ∨
       ∀ k, 1 ≤ k → k < n → capacity k = 0)) ∧
    ((∀ k, 1 ≤ k → k < n → capacity k % 65536 = capacity k) →
      2 ^ shift < initTotalBytes capacity n →
      (∃ k, 1 ≤ k ∧ k < n ∧ capacity k ≠ 0) →
      Init debug 0 n slabs shift capacity =
        .error (.check "per-CPU memory exceeded")) := by
  have hmem : ∀ k : Nat, k ∈ List.range' 1 (n - 1) ↔ 1 ≤ k ∧ k < n := by
    intro k
    rw [List.mem_range'_1]
    omega
  have hassert : ¬ (debug = true ∧ ¬ ((0 : Nat) = 0 ∧ n ≠ 0)) := by
    simp [hn]
  constructor
  · rw [Init, if_neg hassert]
    have hloop := initLoop_ok_iff capacity shift (List.range' 1 (n - 1)) (n * 8)
    constructor
    · intro h
      have hok : ∃ c', InitLoop capacity shift (List.range' 1 (n - 1))
          (n * 8) = .ok c' := by
        rcases heq : InitLoop capacity shift (List.range' 1 (n - 1)) (n * 8)
          with e | c'
        · rw [heq] at h
          exact absurd h (by simp)
        · exact ⟨c', rfl⟩
      obtain ⟨hf, hrem⟩ := hloop.mp hok
      refine ⟨fun k h1 h2 => hf k ((hmem k).mpr ⟨h1, h2⟩), ?_⟩
      rcases hrem with hle | hzero
      · left
        rw [initTotalBytes]
        omega
      · right
        exact fun k h1 h2 => hzero k ((hmem k).mpr ⟨h1, h2⟩)
    · intro ⟨hf, hrem⟩
      have hok : ∃ c', InitLoop capacity shift (List.range' 1 (n - 1))
          (n * 8) = .ok c' := by
        refine hloop.mpr ⟨fun k hk => hf k ((hmem k).mp hk).1 ((hmem k).mp hk).2, ?_⟩
        rcases hrem with hle | hzero
        · left
          rw [initTotalBytes] at hle
          omega
        · right
          exact fun k hk => hzero k ((hmem k).mp hk).1 ((hmem k).mp hk).2
      obtain ⟨c', hc'⟩ := hok
      rw [hc']
  · intro hf hov hex
    rw [Init, if_neg hassert]
    have herr : InitLoop capacity shift (List.range' 1 (n - 1)) (n * 8) =
        .error (.check "per-CPU memory exceeded") := by
      refine initLoop_memory_exceeded capacity shift _ (n * 8)
        (fun k hk => hf k ((hmem k).mp hk).1 ((hmem k).mp hk).2) ?_ ?_
      · rw [initTotalBytes] at hov
        omega
      · obtain ⟨k, h1, h2, h3⟩ := hex
        exact ⟨k, (hmem k).mpr ⟨h1, h2⟩, h3⟩
    rw [herr]

/-- Witness for C6 (amended): 2 classes of capacity 4 with shift 10
(`16 + 40 ≤ 1024`). -/
theorem init_spec_witness :
    (Init false 0 2 7 10 (fun _ => 4) = .ok (7, 10) ↔
      (∀ k, 1 ≤ k → k < 2 → (fun _ => 4) k % 65536 = (fun _ => 4) k) ∧
      (initTotalBytes (fun _ => 4) 2 ≤ 2 ^ 10 ∨
       ∀ k, 1 ≤ k → k < 2 → (fun _ => 4) k = 0)) ∧
    ((∀ k, 1 ≤ k → k < 2 → (fun _ => 4) k % 65536 = (fun _ => 4) k) →
      2 ^ 10 < initTotalBytes (fun _ => 4) 2 →
      (∃ k, 1 ≤ k ∧ k < 2 ∧ (fun _ => 4) k ≠ 0) →
      Init false 0 2 7 10 (fun _ => 4) =
        .error (.check "per-CPU memory exceeded")) :=
  init_spec false 2 7 10 (fun _ => 4) (by decide)

/-- Counterexample for C6 as stated: with 2 classes, both of capacity 0,
and shift 3, the cumulative byte count `num_classes * sizeof(Header) =
16` crosses `2^3 = 8`, yet `Init` returns normally — the overflow check
only runs when a non-zero-capacity class is processed, so the claimed
unconditional crash does not happen. -/
theorem init_overflow_unchecked_cex :
    Init false 0 2 0 3 (fun _ => 0) = .ok (0, 3) ∧
    initTotalBytes (fun _ => 0) 2 = 16 ∧ 2 ^ 3 < 16 := by decide

/-- Phase 1 of `ResizeSlabs` on a duplicate-free CPU list with no stop
flag set: succeeds, sets exactly the listed flags, and emits, per CPU in
order, the stop event followed by the init event when populated. -/
theorem resizePhase1_ok (populated : Nat → Bool) :
    ∀ (cpus : List Nat), cpus.Nodup → ∀ (stopped : Nat → Bool),
    (∀ c ∈ cpus, stopped c = false) →
    ResizePhase1 populated stopped cpus =
      .ok (fun c => if c ∈ cpus then true else stopped c,
           cpus.flatMap fun c => REvent.stopFlag c ::
             if populated c then [REvent.initNewSlab c] else []) := by
  intro cpus
  induction cpus with
  | nil =>
    intro _ stopped _
    simp only [ResizePhase1, List.flatMap_nil]
    refine congrArg Except.ok (Prod.ext ?_ rfl)
    funext c
    simp
  | cons c rest ih =>
    intro hnd stopped hfalse
    obtain ⟨hc, hrest⟩ := List.nodup_cons.mp hnd
    simp only [ResizePhase1]
    rw [if_neg (by simp [hfalse c (by simp)])]
    rw [ih hrest (upd stopped c true) (by
      intro c' hc'
      have hne : c' ≠ c := fun h => hc (h ▸ hc')
      simp [upd, hne, hfalse c' (by simp [hc'])])]
    refine congrArg Except.ok (Prod.ext ?_ ?_)
    · funext x
      by_cases hx : x = c
      · subst hx
        simp [upd, hc]
      · by_cases hr : x ∈ rest <;> simp [upd, hx, hr, List.mem_cons]
    · simp [List.flatMap_cons]

/-- Phase 1 of `ResizeSlabs` crashes on the `TC_CHECK(!stopped_[cpu])`
when some listed CPU already has its stop flag set. -/
theorem resizePhase1_err (populated : Nat → Bool) :
    ∀ (cpus : List Nat) (stopped : Nat → Bool),
    (∃ c ∈ cpus, stopped c = true) →
    ResizePhase1 populated stopped cpus =
      .error (.check "cpu already stopped") := by
  intro cpus
  induction cpus with
  | nil =>
    intro stopped h
    simp at h
  | cons c rest ih =>
    intro stopped h
    simp only [ResizePhase1]
    by_cases hc : stopped c = true
    · rw [if_pos hc]
    · rw [if_neg hc]
      have hex : ∃ c' ∈ rest, upd stopped c true c' = true := by
        obtain ⟨c', hc', hs⟩ := h
        rcases List.mem_cons.mp hc' with rfl | hmem
        · exact absurd hs hc
        · refine ⟨c', hmem, ?_⟩
          by_cases he : c' = c
          · simp [upd, he]
          · simp [upd, he, hs]
      rw [ih (upd stopped c true) hex]

/-- The final `ResizeSlabs` loop clears exactly the listed flags. -/
theorem clearStops_spec :
    ∀ (cpus : List Nat) (stopped : Nat → Bool),
    clearStops stopped cpus = fun c => if c ∈ cpus then false else stopped c := by
  intro cpus
  induction cpus with
  | nil =>
    intro stopped
    funext c
    simp [clearStops]
  | cons a rest ih =>
    intro stopped
    simp only [clearStops]
    rw [ih (upd stopped a false)]
    funext c
    by_cases hc : c = a
    · subst hc
      by_cases hr : c ∈ rest <;> simp [upd, hr, List.mem_cons]
    · by_cases hr : c ∈ rest <;> simp [upd, hc, hr, List.mem_cons]

/-- C7: with no stop flag set and a genuinely new shift, `ResizeSlabs`
performs, in order: per CPU (ascending) the stop-flag store followed by
the new-slab initialisation when populated; the all-CPU fence; the
atomic publish of the new `(base, shift)`; the old-slab drain of each
populated CPU; and the stop-flag clears.  It returns the old base
together with the old slab set's allocation size, publishes the new
pair, and leaves every CPU un-stopped. -/
theorem resizeSlabs_phases (debug : Bool) (numCpus : Nat) (st : SlabsState)
    (newShift newSlabs : Nat) (populated : Nat → Bool)
    (hstopped : ∀ c, c < numCpus → st.stopped c = false)
    (hne : newShift ≠ st.shift) :
    ResizeSlabs debug numCpus st newShift newSlabs populated =
      .ok (⟨newSlabs, newShift,
            fun c => if c < numCpus then false else st.stopped c⟩,
           ((List.range numCpus).flatMap fun c => REvent.stopFlag c ::
              if populated c then [REvent.initNewSlab c] else []) ++
           [REvent.fenceAll, REvent.publish newSlabs newShift] ++
           ((List.range numCpus).filter fun c => populated c).map
             REvent.drainOld ++
           (List.range numCpus).map REvent.startFlag,
           st.slabs, GetSlabsAllocSize st.shift numCpus) := by
  rw [ResizeSlabs, if_neg (by simp [hne])]
  rw [resizePhase1_ok populated (List.range numCpus) (List.nodup_range ..)
    st.stopped (fun c hc => hstopped c (List.mem_range.mp hc))]
  refine congrArg Except.ok (Prod.ext ?_ (Prod.ext ?_ rfl))
  · refine congrArg (SlabsState.mk newSlabs newShift) ?_
    rw [clearStops_spec]
    funext c
    by_cases hc : c ∈ List.range numCpus
    · simp [hc, List.mem_range.mp hc]
    · have hlt : ¬ c < numCpus := fun h => hc (List.mem_range.mpr h)
      simp [hc, hlt]
  · rfl

/-- Witness for C7: two CPUs, CPU 0 populated, shift 3 → 4. -/
theorem resizeSlabs_phases_witness :
    ResizeSlabs false 2 ⟨5, 3, fun _ => false⟩ 4 9 (fun c => c == 0) =
      .ok (⟨9, 4, fun c => if c < 2 then false else (fun _ => false) c⟩,
           ((List.range 2).flatMap fun c => REvent.stopFlag c ::
              if (fun c => c == 0) c then [REvent.initNewSlab c] else []) ++
           [REvent.fenceAll, REvent.publish 9 4] ++
           ((List.range 2).filter fun c => (fun c => c == 0) c).map
             REvent.drainOld ++
           (List.range 2).map REvent.startFlag,
           5, GetSlabsAllocSize 3 2) :=
  resizeSlabs_phases false 2 ⟨5, 3, fun _ => false⟩ 4 9 (fun c => c == 0)
    (fun _ _ => rfl) (by decide)

/-- C10: `ResizeSlabs` has two preconditions — the debug-only
`TC_ASSERT_NE(new_shift, old_shift)`, and, checked per CPU before the
flag is set, the always-fatal `TC_CHECK(!stopped_[cpu])`: if any CPU's
stop flag is already set when it is called, it crashes fatally. -/
theorem resizeSlabs_preconditions (debug : Bool) (numCpus : Nat)
    (st : SlabsState) (newShift newSlabs : Nat) (populated : Nat → Bool) :
    (debug = true → newShift = st.shift →
      ResizeSlabs debug numCpus st newShift newSlabs populated =
        .error (.assertFail "new shift equals old shift")) ∧
    ((∃ c, c < numCpus ∧ st.stopped c = true) →
      (debug = false ∨ newShift ≠ st.shift) →
      ResizeSlabs debug numCpus st newShift newSlabs populated =
        .error (.check "cpu already stopped")) := by
  constructor
  · intro hd hsh
    rw [ResizeSlabs, if_pos ⟨hd, hsh⟩]
  · intro hex hcond
    have hcond' : ¬ (debug = true ∧ newShift = st.shift) := by
      rcases hcond with h | h <;> simp [h]
    rw [ResizeSlabs, if_neg hcond']
    rw [resizePhase1_err populated (List.range numCpus) st.stopped (by
      obtain ⟨c, hc, hs⟩ := hex
      exact ⟨c, List.mem_range.mpr hc, hs⟩)]

/-- Witness for C10: the debug assert fires on an equal shift; the stop
check fires on an already-stopped CPU even in a release build. -/
theorem resizeSlabs_preconditions_witness :
    ResizeSlabs true 1 ⟨0, 3, fun _ => false⟩ 3 0 (fun _ => false) =
      .error (.assertFail "new shift equals old shift") ∧
    ResizeSlabs false 1 ⟨0, 3, fun _ => true⟩ 4 0 (fun _ => false) =
      .error (.check "cpu already stopped") :=
  ⟨(resizeSlabs_preconditions true 1 ⟨0, 3, fun _ => false⟩ 3 0
      (fun _ => false)).1 rfl rfl,
   (resizeSlabs_preconditions false 1 ⟨0, 3, fun _ => true⟩ 4 0
      (fun _ => false)).2 ⟨0, by omega, rfl⟩ (Or.inl rfl)⟩

/-- The `Init` validation loop only ever crashes through `TC_CHECK`s,
never through a debug assertion. -/
theorem initLoop_no_assert (capacity : Nat → Nat) (shift : Nat) :
    ∀ (ks : List Nat) (consumed : Nat) (msg : String),
    InitLoop capacity shift ks consumed ≠ .error (.assertFail msg) := by
  intro ks
  induction ks with
  | nil =>
    intro consumed msg h
    simp [InitLoop] at h
  | cons k rest ih =>
    intro consumed msg h
    simp only [InitLoop] at h
    split at h
    · simp at h
    split at h
    · exact ih consumed msg h
    split at h
    · simp at h
    · exact ih _ msg h

/-- C8 (amended): `StopCpu` on an already-stopped CPU fails its
`TC_CHECK` and is fatal in every build configuration.  By contrast, the
stop-flag preconditions of `GrowOtherCache`/`ShrinkOtherCache` and the
double-`Init` precondition are `ASSERT`s: fatal in debug builds, but
compiled out under `NDEBUG`, where the operations proceed normally
(`Init` can still die, but only through its `TC_CHECK`s). -/
theorem stop_fatal_other_preconditions_debug_only
    (debug : Bool) (numCpus : Nat) (stopped : Nat → Bool) (cpu : Nat)
    (hdr : Header) (len maxCap slabs shift : Nat) (slots : Nat → Nat)
    (sizeClass prevClasses n slabsBase shiftv : Nat)
    (capacity : Nat → Nat) :
    (stopped cpu = true → cpu < numCpus →
      StopCpu debug numCpus stopped cpu =
        .error (.check "cpu already stopped")) ∧
    (stopped cpu = false →
      GrowOtherCacheOp true stopped cpu hdr len maxCap =
        .error (.assertFail "cpu not stopped") ∧
      GrowOtherCacheOp false stopped cpu hdr len maxCap =
        .ok (GrowOtherCache hdr len maxCap) ∧
      ShrinkOtherCacheOp true stopped slabs shift cpu slots sizeClass hdr len =
        .error (.assertFail "cpu not stopped") ∧
      ShrinkOtherCacheOp false stopped slabs shift cpu slots sizeClass hdr len =
        .ok (ShrinkOtherCache slabs shift cpu slots sizeClass hdr len)) ∧
    (prevClasses ≠ 0 →
      Init true prevClasses n slabsBase shiftv capacity =
        .error (.assertFail "double init") ∧
      ∀ msg, Init false prevClasses n slabsBase shiftv capacity ≠
        .error (.assertFail msg)) := by
  refine ⟨?_, ?_, ?_⟩
  · intro hs hcpu
    rw [StopCpu, if_neg (by simp [hcpu]), if_pos hs]
  · intro hf
    refine ⟨?_, ?_, ?_, ?_⟩
    · rw [GrowOtherCacheOp, if_pos ⟨rfl, hf⟩]
    · rw [GrowOtherCacheOp, if_neg (by simp)]
    · rw [ShrinkOtherCacheOp, if_pos ⟨rfl, hf⟩]
    · rw [ShrinkOtherCacheOp, if_neg (by simp)]
  · intro hprev
    constructor
    · rw [Init, if_pos ⟨rfl, fun hand => hprev hand.1⟩]
    · intro msg h
      rw [Init, if_neg (by simp)] at h
      rcases heq : InitLoop capacity shiftv (List.range' 1 (n - 1)) (n * 8)
        with e | c
      · rw [heq] at h
        injection h with h2
        exact initLoop_no_assert capacity shiftv _ (n * 8) msg
          (by rw [heq, h2])
      · rw [heq] at h
        simp at h

/-- Witness for C8 (amended), at concrete states for each conjunct. -/
theorem stop_fatal_other_preconditions_debug_only_witness :
    StopCpu false 1 (fun _ => true) 0 =
      .error (.check "cpu already stopped") ∧
    GrowOtherCacheOp true (fun _ => false) 0 ⟨0, 0, 0⟩ 1 16 =
      .error (.assertFail "cpu not stopped") ∧
    GrowOtherCacheOp false (fun _ => false) 0 ⟨0, 0, 0⟩ 1 16 =
      .ok (GrowOtherCache ⟨0, 0, 0⟩ 1 16) ∧
    ShrinkOtherCacheOp true (fun _ => false) 0 20 0 (fun _ => 0) 3 ⟨0, 0, 0⟩ 1 =
      .error (.assertFail "cpu not stopped") ∧
    ShrinkOtherCacheOp false (fun _ => false) 0 20 0 (fun _ => 0) 3 ⟨0, 0, 0⟩ 1 =
      .ok (ShrinkOtherCache 0 20 0 (fun _ => 0) 3 ⟨0, 0, 0⟩ 1) ∧
    Init true 5 2 0 10 (fun _ => 0) = .error (.assertFail "double init") ∧
    Init false 5 2 0 10 (fun _ => 0) ≠ .error (.assertFail "double init") := by
  have h1 := stop_fatal_other_preconditions_debug_only false 1 (fun _ => true)
    0 ⟨0, 0, 0⟩ 1 16 0 20 (fun _ => 0) 3 5 2 0 10 (fun _ => 0)
  have h2 := stop_fatal_other_preconditions_debug_only false 1 (fun _ => false)
    0 ⟨0, 0, 0⟩ 1 16 0 20 (fun _ => 0) 3 5 2 0 10 (fun _ => 0)
  have g := h2.2.1 rfl
  have i := h2.2.2 (by decide)
  exact ⟨h1.1 rfl (by decide), g.1, g.2.1, g.2.2.1, g.2.2.2,
    i.1, i.2 "double init"⟩

/-- Counterexample for C8 as stated: in a release (`NDEBUG`) build,
`GrowOtherCache` invoked on a CPU whose stop flag is not set does not
crash — the `ASSERT(stopped_[cpu])` is compiled out and the call returns
normally, growing the cache. -/
theorem grow_unstopped_release_not_fatal_cex :
    GrowOtherCacheOp false (fun _ => false) 0 ⟨0, 0, 0⟩ 1 16 =
      .ok (⟨0, 0, 1⟩, 1) := by decide
